import Mathlib

/-!
Verification of the reconciliation plugin (`plugins/resources.py`) of the
`std` module: a shallow embedding of the content assembler, the file,
package, service and agent-config reconcilers, together with theorems
settling the specification claims about them.

Conventions of the embedding:
* Python strings are Lean `String`s; where character-level parsing is
  involved (the yum output parsers) we work on `List Char`, the underlying
  data of a `String`.
* Filesystem and command side effects are made explicit: predicates such as
  "file exists" become function parameters, and the write effects of a
  handler are returned as an explicit trace (a `List` of operations) inside
  `Except`, whose `error` case models a raised Python exception.
* The SHA1 hash function is an uninterpreted parameter `hashFn`: the claims
  about the handlers only compare hash values for equality.
-/

namespace StdPlugins

/-! ## Content assembler (`generate_content`, `store_file`) -/

/-- A content fragment: a value plus an optional sorting key
(`std::ContentFile` in the model, consumed by `generate_content`). -/
structure Fragment where
  sorting_key : Option String
  value : String
deriving DecidableEq, Repr

/-- Lexicographic strict comparison of character sequences by code point:
the order Python uses to compare the `str` sorting keys. -/
def lexLt : List Char → List Char → Bool
  | [], [] => false
  | [], _ :: _ => true
  | _ :: _, [] => false
  | x :: xs, y :: ys =>
    if x.toNat < y.toNat then true
    else if y.toNat < x.toNat then false
    else lexLt xs ys

/-- Stable insertion into a list ordered by the first projection; this is
the placement discipline of Python `list.sort(key=...)`: a newly inserted
element goes before every element whose key is strictly greater, and after
all earlier elements with an equal key. -/
def insertKeyed (x : String × String) : List (String × String) → List (String × String)
  | [] => [x]
  | y :: ys => if lexLt y.1.data x.1.data then y :: insertKeyed x ys else x :: y :: ys

/-- Stable sort by the first projection, the embedding of Python
`sort_list.sort(key=lambda tup: tup[0])` (Timsort is stable). -/
def sortKeyed : List (String × String) → List (String × String)
  | [] => []
  | x :: xs => insertKeyed x (sortKeyed xs)

/-- The pair pushed onto `sort_list` for one fragment: `(value, value)` when
the sorting key is absent, `(sorting_key, value)` otherwise. -/
def fragPair (c : Fragment) : String × String :=
  match c.sorting_key with
  | none => (c.value, c.value)
  | some k => (k, c.value)

/-- Embedding of `generate_content(content_list, seperator)`: build the list
of `(key, value)` pairs, sort it stably by key, join the values with the
separator and append one trailing separator. -/
def generate_content (content_list : List Fragment) (seperator : String) : String :=
  String.intercalate seperator ((sortKeyed (content_list.map fragPair)).map (fun x => x.2))
    ++ seperator

/-- Embedding of the assembly part of `store_file` for a resolved (non
`Unknown`, non `FileMarker`) payload: lines 67-70 of `resources.py`.
If prefix fragments are present, `generate_content` of them plus one more
separator is prepended; if suffix fragments are present, one separator plus
`generate_content` of them is appended. -/
def store_file_content (pre suf : List Fragment) (content_seperator content : String) :
    String :=
  let c1 :=
    if pre.length > 0 then
      generate_content pre content_seperator ++ content_seperator ++ content
    else content
  if suf.length > 0 then
    c1 ++ content_seperator ++ generate_content suf content_seperator
  else c1

/-- The assembly the specification describes, for comparison with
`store_file_content`: the ordered fragments joined with the separator
followed by exactly one trailing separator, prepended directly to the
payload; and for suffixes the payload, one separator, then the joined
suffixes. -/
def assembleSpec (pre suf : List Fragment) (sep payload : String) : String :=
  let joined := fun (l : List Fragment) =>
    String.intercalate sep ((sortKeyed (l.map fragPair)).map (fun x => x.2))
  let c1 := if pre.length > 0 then joined pre ++ sep ++ payload else payload
  if suf.length > 0 then c1 ++ sep ++ joined suf else c1

/-! ## Service handler availability probes -/

/-- Embedding of `SystemdService.available`: the path recorded in
`self._systemd_path`, as a function of which files exist on the host. -/
def systemd_path (file_exists : String → Bool) : Option String :=
  if file_exists "/usr/bin/systemctl" then some "/usr/bin/systemctl"
  else if file_exists "/bin/systemctl" then some "/bin/systemctl"
  else none

/-- `SystemdService.available` returns whether `_systemd_path` was set. -/
def systemd_available (file_exists : String → Bool) : Bool :=
  (systemd_path file_exists).isSome

/-- Embedding of `ServiceService.available` (the legacy chkconfig/service
handler): both legacy binaries exist and `/usr/bin/systemctl` does not. -/
def redhat_service_available (file_exists : String → Bool) : Bool :=
  file_exists "/sbin/chkconfig" && file_exists "/sbin/service" &&
    !(file_exists "/usr/bin/systemctl")

/-! ## Posix file handler (`PosixFileProvider`) -/

/-- A filesystem write effect performed by the file handler, in order. -/
inductive FsOp where
  | put (data : List Nat) : FsOp
  | chmod (mode : String) : FsOp
  | chown (owner group : String) : FsOp
deriving DecidableEq

/-- Embedding of `PosixFileProvider.create_resource`. `hashFn` is the
(uninterpreted) `hash_file` SHA1; `file_exists` is the result of
`self._io.file_exists(resource.path)`; `fetched` the bytes returned by
`self.get_file(resource.hash)`. The returned trace lists the filesystem
writes in execution order; `error` models a raised exception, performed
before any write reaches the trace. -/
def PosixFileProvider.create_resource (hashFn : List Nat → String) (file_exists : Bool)
    (fetched : List Nat) (hash : String) (permissions : Nat) (owner group : String) :
    Except String (List FsOp) :=
  if file_exists then
    Except.error "Cannot create file, because it already exists."
  else if hashFn fetched ≠ hash then
    Except.error "File hash mismatch"
  else
    Except.ok [FsOp.put fetched, FsOp.chmod (toString permissions),
      FsOp.chown owner group]

/-- Embedding of `PosixFileProvider.update_resource`. `changes` is the set
of keys of the `changes` dict computed by the generic CRUD diff. -/
def PosixFileProvider.update_resource (hashFn : List Nat → String) (file_exists : Bool)
    (changes : List String) (fetched : List Nat) (hash : String) (permissions : Nat)
    (owner group : String) : Except String (List FsOp) :=
  if !file_exists then
    Except.error "Cannot update file because it does not exist"
  else do
    let opsHash ←
      if "hash" ∈ changes then
        if hashFn fetched ≠ hash then Except.error "File hash mismatch"
        else Except.ok [FsOp.put fetched]
      else Except.ok []
    let opsPerm :=
      if "permissions" ∈ changes then [FsOp.chmod (toString permissions)] else []
    let opsOwn :=
      if "owner" ∈ changes ∨ "group" ∈ changes then [FsOp.chown owner group] else []
    Except.ok (opsHash ++ opsPerm ++ opsOwn)

/-! ## Python dict operations (insertion-ordered association lists) -/

/-- Python `d[k] = v`: replace the value at an existing key in place, else
append the binding at the end. -/
def dictSet {α β : Type} [DecidableEq α] : List (α × β) → α → β → List (α × β)
  | [], k, v => [(k, v)]
  | (k0, v0) :: rest, k, v =>
    if k0 = k then (k0, v) :: rest else (k0, v0) :: dictSet rest k v

/-- Python `d[k]`: the value at the first (unique) occurrence of the key. -/
def dictLookup {α β : Type} [DecidableEq α] : List (α × β) → α → Option β
  | [], _ => none
  | (k0, v0) :: rest, k => if k0 = k then some v0 else dictLookup rest k

/-- Python `props[k] += " " + v` on a dict with `List Char` keys and values:
`none` models the `KeyError` raised when the key is absent. -/
def dictAppendSpace :
    List (List Char × List Char) → List Char → List Char →
      Option (List (List Char × List Char))
  | [], _, _ => none
  | (k0, v0) :: rest, k, v =>
    if k0 = k then some ((k0, v0 ++ ' ' :: v) :: rest)
    else (dictAppendSpace rest k v).map (fun r => (k0, v0) :: r)

/-! ## Yum output parsing (`YumPackage._parse_fields`, `check_resource`) -/

/-- The whitespace class of Python `\s` and `str.strip()`. -/
def isPySpace (c : Char) : Bool :=
  c = ' ' || c = '\t' || c = '\n' || c = '\r' || c = '\x0b' || c = '\x0c'

/-- Python `str.strip()`: drop leading and trailing whitespace. -/
def pyStrip (cs : List Char) : List Char :=
  ((cs.dropWhile isPySpace).reverse.dropWhile isPySpace).reverse

/-- Python `str.split(sep)` for a one-character separator: split at every
occurrence, keeping empty pieces (so the result is never empty). -/
def pySplitChar (sep : Char) (cs : List Char) : List (List Char) :=
  cs.foldr
    (fun c acc =>
      if c = sep then [] :: acc
      else
        match acc with
        | [] => [[c]]
        | g :: gs => (c :: g) :: gs)
    [[]]

/-- The `version_str.split("-")` of `YumPackage.check_resource`. -/
def splitDash (cs : List Char) : List (List Char) :=
  pySplitChar '-' cs

/-- The whitespace-separated tokens of a line: what the groups of the regex
`([^\s]+)\s+([^\s]+)\s+([^\s]+)` range over. -/
def wsTokens (cs : List Char) : List (List Char) :=
  (cs.foldr
    (fun c acc =>
      if isPySpace c then [] :: acc
      else
        match acc with
        | [] => [[c]]
        | g :: gs => (c :: g) :: gs)
    [[]]).filter (fun g => g ≠ [])

/-- Embedding of the `check-update` parsing step of
`YumPackage.check_resource` (lines 412-418) on the first output line:
`re.search` of three whitespace-separated columns succeeds when the line has
at least three tokens, the second token is the version column, and
`version, release = version_str.split("-")` raises a `ValueError` (the
`Except.error` case) unless the split yields exactly two parts. Returns the
value stored in `data["update"]`. -/
def parseUpdateFirstLine (line : List Char) :
    Except Unit (Option (List Char × List Char)) :=
  if 3 ≤ (wsTokens line).length ∧ ("Security:".data.isPrefixOf line) = false then
    match splitDash ((wsTokens line).getD 1 []) with
    | [v, r] => Except.ok (some (v, r))
    | _ => Except.error ()
  else Except.ok none

/-- The split the specification describes for the version column: split into
a `(version, release)` pair at the first dash (`none` when there is no
dash). Stated from the claim words, for comparison with the source
behaviour `parseUpdateFirstLine`. -/
def firstDashSplit (cs : List Char) : Option (List Char × List Char) :=
  if cs.contains '-' then
    some (cs.takeWhile (fun c => c ≠ '-'), (cs.dropWhile (fun c => c ≠ '-')).tail)
  else none

/-- The `\s+(.+)` tail of the field regex, applied to the rest of the line
after the literal `" :"`: at least one whitespace character, consumed
greedily, followed by a nonempty value group (when the rest is all
whitespace, the greedy `\s+` backs off one character so the value group can
take it). Returns the value group. -/
def matchRestWS (rest : List Char) : Option (List Char) :=
  let w := rest.takeWhile isPySpace
  if w.length = 0 then none
  else if w.length = rest.length then
    if 2 ≤ rest.length then some (rest.drop (rest.length - 1)) else none
  else some (rest.drop w.length)

/-- Embedding of `re.search(r"^(.+) :\s+(.+)", line)` with Python greedy
matching: the key group `(.+)` takes the longest prefix that still leaves a
literal `" :"`, whitespace and a nonempty value; returns
`(key group, value group)`. -/
def reMatchKV (cs : List Char) : Option (List Char × List Char) :=
  ((List.range cs.length).reverse.filterMap
    (fun i =>
      if 1 ≤ i ∧ i + 1 < cs.length ∧ cs.getD i 'x' = ' ' ∧ cs.getD (i + 1) 'x' = ':' then
        match matchRestWS (cs.drop (i + 2)) with
        | some v => some (cs.take i, v)
        | none => none
      else none)).head?

/-- Embedding of the loop body of `YumPackage._parse_fields`: fold over the
output lines carrying the `props` dict and `old_key`. A blank line is
skipped; the line `Available Packages` (stripped) stops the parse; a line
the regex does not match is skipped; a matched line with non-empty stripped
key starts a new field and becomes `old_key`; a matched line with empty
stripped key appends `" " + value` to the `old_key` field (`Except.error`
models the `KeyError` when `old_key` is `None`). -/
def parseFieldsGo :
    List (List Char) → List (List Char × List Char) → Option (List Char) →
      Except Unit (List (List Char × List Char))
  | [], props, _ => Except.ok props
  | line :: rest, props, oldKey =>
    if pyStrip line = [] then parseFieldsGo rest props oldKey
    else if pyStrip line = "Available Packages".data then Except.ok props
    else
      match reMatchKV line with
      | none => parseFieldsGo rest props oldKey
      | some (k, v) =>
        if pyStrip k = [] then
          match oldKey with
          | none => Except.error ()
          | some ko =>
            match dictAppendSpace props ko v with
            | none => Except.error ()
            | some props2 => parseFieldsGo rest props2 oldKey
        else parseFieldsGo rest (dictSet props (pyStrip k) v) (some (pyStrip k))

/-- `YumPackage._parse_fields(lines)`: fold from the empty dict. -/
def parse_fields (lines : List (List Char)) :
    Except Unit (List (List Char × List Char)) :=
  parseFieldsGo lines [] none

/-! ## Package change computation (`YumPackage.list_changes`) -/

/-- The dict returned by `YumPackage.check_resource`: either the bare
`{"state": "removed"}` returned when no `Repo` field was parsed, or the full
snapshot with `state`, `version`, `release` and `update` keys. -/
inductive CheckResult where
  | removedOnly : CheckResult
  | full (state version release : String) (update : Option (String × String)) :
      CheckResult
deriving DecidableEq

/-- `state["state"]` of a check result. -/
def checkState : CheckResult → String
  | CheckResult.removedOnly => "removed"
  | CheckResult.full s _ _ _ => s

/-- `state["update"]` when the key is present, else `none`. -/
def checkUpdate : CheckResult → Option (String × String)
  | CheckResult.removedOnly => none
  | CheckResult.full _ _ _ u => u

/-- The `changes` dict built by `YumPackage.list_changes`: at most a
`"state"` entry (current, desired) and a `"version"` entry
((version, release), update). -/
structure PkgChanges where
  state : Option (String × String)
  version : Option ((String × String) × (String × String))
deriving DecidableEq

/-- Embedding of `YumPackage.list_changes` as a function of the desired
`resource.state` and the snapshot returned by `check_resource`. -/
def list_changes (desired : String) (st : CheckResult) : PkgChanges :=
  let c1 :=
    if desired = "removed" then
      if checkState st ≠ "removed" then some (checkState st, desired) else none
    else if desired = "installed" ∨ desired = "latest" then
      if checkState st ≠ "installed" then some (checkState st, "installed") else none
    else none
  let c2 :=
    match st with
    | CheckResult.removedOnly => none
    | CheckResult.full _ v r u =>
      if desired = "latest" then u.map (fun up => ((v, r), up)) else none
  ⟨c1, c2⟩

/-- The empty change-set: the reconciler is converged. -/
def PkgChanges.isEmpty (c : PkgChanges) : Prop :=
  c.state = none ∧ c.version = none

/-- The snapshot satisfies the desired state, in the words of the
specification: desired `removed` matches state `removed`; desired
`installed` matches state `installed`; desired `latest` matches state
`installed` with no available update. -/
def convergedPkg (desired : String) (st : CheckResult) : Prop :=
  (desired = "removed" ∧ checkState st = "removed") ∨
  (desired = "installed" ∧ checkState st = "installed") ∨
  (desired = "latest" ∧ checkState st = "installed" ∧ checkUpdate st = none)

/-! ## AgentConfig handler -/

/-- Embedding of `AgentConfigHandler.create_resource`: the map written back
by `_set_map` is the map read in `read_resource` with the entry for the
agent name set to the resource URI. -/
def AgentConfigHandler.create_resource (m : List (String × String))
    (agentname uri : String) : List (String × String) :=
  dictSet m agentname uri

/-- Embedding of `AgentConfigHandler.update_resource`: identical write-back
to `create_resource`. -/
def AgentConfigHandler.update_resource (m : List (String × String))
    (agentname uri : String) : List (String × String) :=
  dictSet m agentname uri

/-- Embedding of `AgentConfig.get_autostart`: the argument is the outcome of
evaluating `obj.autostart` (`Except.error` for an unset attribute or any
other raised exception); a falsy value raises `IgnoreResourceException`
inside the `try`, and any exception from the body is turned into
`IgnoreResourceException` by the `except` clause. -/
def get_autostart (autostart : Except String Bool) : Except String Bool :=
  match autostart with
  | Except.error _ => Except.error "IgnoreResourceException"
  | Except.ok b => if !b then Except.error "IgnoreResourceException" else Except.ok b

instance {ε α : Type} [DecidableEq ε] [DecidableEq α] : DecidableEq (Except ε α) :=
  fun a b =>
    match a, b with
    | Except.error e1, Except.error e2 =>
      if h : e1 = e2 then isTrue (by rw [h])
      else isFalse (fun hc => h (by injection hc))
    | Except.error _, Except.ok _ => isFalse (fun hc => Except.noConfusion hc)
    | Except.ok _, Except.error _ => isFalse (fun hc => Except.noConfusion hc)
    | Except.ok a1, Except.ok a2 =>
      if h : a1 = a2 then isTrue (by rw [h])
      else isFalse (fun hc => h (by injection hc))

/-! ## Order lemmas for the lexicographic key comparison -/

theorem lexLt_irrefl (a : List Char) : lexLt a a = false := by
  induction a with
  | nil => rfl
  | cons x xs ih =>
    rw [lexLt, if_neg (Nat.lt_irrefl _), if_neg (Nat.lt_irrefl _)]
    exact ih

theorem lexLt_trans {a b c : List Char} (h1 : lexLt a b = true)
    (h2 : lexLt b c = true) : lexLt a c = true := by
  induction a generalizing b c with
  | nil =>
    cases b with
    | nil => simp [lexLt] at h1
    | cons y ys =>
      cases c with
      | nil => simp [lexLt] at h2
      | cons z zs => rfl
  | cons x xs ih =>
    cases b with
    | nil => simp [lexLt] at h1
    | cons y ys =>
      cases c with
      | nil => simp [lexLt] at h2
      | cons z zs =>
        rw [lexLt] at h1 h2 ⊢
        split_ifs at h1 h2 ⊢ <;>
          first
            | rfl
            | omega
            | exact ih h1 h2

theorem lexLt_eq_of_both_false {a b : List Char} (h1 : lexLt a b = false)
    (h2 : lexLt b a = false) : a = b := by
  induction a generalizing b with
  | nil =>
    cases b with
    | nil => rfl
    | cons y ys => simp [lexLt] at h1
  | cons x xs ih =>
    cases b with
    | nil => simp [lexLt] at h2
    | cons y ys =>
      rw [lexLt] at h1 h2
      split_ifs at h1 h2 with hxy hyx
      have hnat : x.toNat = y.toNat := by omega
      have hx : x = y := Char.ext (UInt32.ext hnat)
      rw [hx, ih h1 h2]

theorem lexLt_asymm {a b : List Char} (h1 : lexLt a b = true)
    (h2 : lexLt b a = true) : False := by
  have h := lexLt_trans h1 h2
  rw [lexLt_irrefl] at h
  exact Bool.false_ne_true h

theorem lexLt_false_trans {a b c : List Char} (h1 : lexLt b a = false)
    (h2 : lexLt c b = false) : lexLt c a = false := by
  cases hca : lexLt c a with
  | false => rfl
  | true =>
    cases hab : lexLt a b with
    | true =>
      have := lexLt_trans hca hab
      rw [h2] at this
      exact absurd this Bool.false_ne_true
    | false =>
      have hba : a = b := lexLt_eq_of_both_false hab h1
      rw [hba, h2] at hca
      exact absurd hca Bool.false_ne_true

/-- The non-strict order the sorted output satisfies: the right key is not
lexicographically below the left one. -/
def keyLe (p q : String × String) : Prop := lexLt q.1.data p.1.data = false

/-- The strict key order: the left key is lexicographically below the right. -/
def keyLt (p q : String × String) : Prop := lexLt p.1.data q.1.data = true

theorem keyLt_of_keyLe_ne {p q : String × String} (h1 : keyLe p q)
    (h2 : p.1 ≠ q.1) : keyLt p q := by
  cases hv : lexLt p.1.data q.1.data with
  | true => exact hv
  | false => exact absurd (String.ext (lexLt_eq_of_both_false hv h1)) h2

theorem insertKeyed_perm (x : String × String) (l : List (String × String)) :
    (insertKeyed x l).Perm (x :: l) := by
  induction l with
  | nil => exact List.Perm.refl _
  | cons y ys ih =>
    rw [insertKeyed]
    split_ifs with hc
    · exact (ih.cons y).trans (List.Perm.swap x y ys)
    · exact List.Perm.refl _

theorem sortKeyed_perm (l : List (String × String)) : (sortKeyed l).Perm l := by
  induction l with
  | nil => exact List.Perm.refl _
  | cons x xs ih => exact (insertKeyed_perm x (sortKeyed xs)).trans (ih.cons x)

theorem insertKeyed_sorted (x : String × String) {l : List (String × String)}
    (h : l.Sorted keyLe) : (insertKeyed x l).Sorted keyLe := by
  induction l with
  | nil => simp [insertKeyed, List.sorted_singleton]
  | cons y ys ih =>
    rw [List.sorted_cons] at h
    obtain ⟨hy, hys⟩ := h
    rw [insertKeyed]
    split_ifs with hc
    · rw [List.sorted_cons]
      refine ⟨?_, ih hys⟩
      intro z hz
      rcases List.mem_cons.mp ((insertKeyed_perm x ys).subset hz) with rfl | hzys
      · cases hxy : lexLt z.1.data y.1.data with
        | false => exact hxy
        | true => exact (lexLt_asymm hc hxy).elim
      · exact hy z hzys
    · have hc' : lexLt y.1.data x.1.data = false := by
        cases hv : lexLt y.1.data x.1.data with
        | false => rfl
        | true => exact absurd hv hc
      rw [List.sorted_cons]
      refine ⟨?_, List.sorted_cons.mpr ⟨hy, hys⟩⟩
      intro z hz
      rcases List.mem_cons.mp hz with rfl | hzys
      · exact hc'
      · exact lexLt_false_trans hc' (hy z hzys)

theorem sortKeyed_sorted (l : List (String × String)) :
    (sortKeyed l).Sorted keyLe := by
  induction l with
  | nil => exact List.sorted_nil
  | cons x xs ih => exact insertKeyed_sorted x ih

/-! ## Lemmas about the Python dict operations -/

theorem dictSet_lookup_self {α β : Type} [DecidableEq α] (m : List (α × β)) (k : α)
    (v : β) : dictLookup (dictSet m k v) k = some v := by
  induction m with
  | nil => simp [dictSet, dictLookup]
  | cons p rest ih =>
    obtain ⟨k0, v0⟩ := p
    by_cases hk : k0 = k
    · simp [dictSet, dictLookup, hk]
    · simp [dictSet, dictLookup, hk, ih]

theorem dictSet_lookup_other {α β : Type} [DecidableEq α] (m : List (α × β)) (k : α)
    (v : β) (k2 : α) (hk : k2 ≠ k) :
    dictLookup (dictSet m k v) k2 = dictLookup m k2 := by
  induction m with
  | nil => simp [dictSet, dictLookup, Ne.symm hk]
  | cons p rest ih =>
    obtain ⟨k0, v0⟩ := p
    by_cases h0 : k0 = k
    · subst h0
      simp [dictSet, dictLookup, Ne.symm hk]
    · by_cases h2 : k0 = k2
      · simp [dictSet, dictLookup, h0, h2, hk]
      · simp [dictSet, dictLookup, h0, h2, ih]

theorem dictAppendSpace_spec (props : List (List Char × List Char))
    (ko v v0 : List Char) (h : dictLookup props ko = some v0) :
    ∃ props2, dictAppendSpace props ko v = some props2 ∧
      dictLookup props2 ko = some (v0 ++ ' ' :: v) ∧
      ∀ k2, k2 ≠ ko → dictLookup props2 k2 = dictLookup props k2 := by
  induction props with
  | nil => simp [dictLookup] at h
  | cons p rest ih =>
    obtain ⟨k0, w⟩ := p
    by_cases h0 : k0 = ko
    · subst h0
      rw [dictLookup, if_pos rfl] at h
      injection h with hw
      subst hw
      refine ⟨(k0, w ++ ' ' :: v) :: rest, ?_, ?_, ?_⟩
      · rw [dictAppendSpace, if_pos rfl]
      · rw [dictLookup, if_pos rfl]
      · intro k2 hk2
        rw [dictLookup, dictLookup, if_neg (fun h => hk2 h.symm),
          if_neg (fun h => hk2 h.symm)]
    · rw [dictLookup, if_neg h0] at h
      obtain ⟨props2, hp2, hl2, hframe⟩ := ih h
      refine ⟨(k0, w) :: props2, ?_, ?_, ?_⟩
      · rw [dictAppendSpace, if_neg h0, hp2]
        rfl
      · rw [dictLookup, if_neg h0]
        exact hl2
      · intro k2 hk2
        by_cases hk0 : k0 = k2
        · rw [dictLookup, dictLookup, if_pos hk0, if_pos hk0]
        · rw [dictLookup, dictLookup, if_neg hk0, if_neg hk0]
          exact hframe k2 hk2

/-! ## Claim C2: assembly of prefix and suffix fragments -/

/-- C2 counterexample: the assembled bytes are not the joined prefix
fragments with exactly one trailing separator prepended directly to the
payload — `store_file` concatenates `generate_content` (which already ends
in one separator) with a second separator, giving `"a,,x"` where the claim
describes `"a,x"`; symmetrically, a suffix gets one separator appended
after the joined fragments where the claim describes none. -/
theorem store_file_double_seperator_cex :
    store_file_content [⟨none, "a"⟩] [] "," "x" = "a,,x" ∧
    assembleSpec [⟨none, "a"⟩] [] "," "x" = "a,x" ∧
    store_file_content [⟨none, "a"⟩] [] "," "x" ≠
      assembleSpec [⟨none, "a"⟩] [] "," "x" ∧
    store_file_content [] [⟨none, "b"⟩] "," "x" = "x,b," ∧
    assembleSpec [] [⟨none, "b"⟩] "," "x" = "x,b" ∧
    store_file_content [] [⟨none, "b"⟩] "," "x" ≠
      assembleSpec [] [⟨none, "b"⟩] "," "x" := by
  refine ⟨by decide, by decide, by decide, by decide, by decide, by decide⟩

/-- C2 (amended): when prefix fragments are present, the assembled bytes are
the ordered prefix fragments joined with the separator, one trailing
separator, then a second separator, then the payload; when suffix fragments
are present, the payload, one separator, the joined suffix fragments, and
one trailing separator. -/
theorem store_file_assembly_amended (pre suf : List Fragment) (sep payload : String) :
    (suf = [] → pre ≠ [] →
      store_file_content pre suf sep payload =
        String.intercalate sep ((sortKeyed (pre.map fragPair)).map (fun x => x.2)) ++
          sep ++ sep ++ payload) ∧
    (pre = [] → suf ≠ [] →
      store_file_content pre suf sep payload =
        payload ++ sep ++
          String.intercalate sep ((sortKeyed (suf.map fragPair)).map (fun x => x.2)) ++
          sep) := by
  constructor
  · rintro rfl hpre
    have hl : 0 < pre.length := List.length_pos.mpr hpre
    simp [store_file_content, generate_content, hl]
  · rintro rfl hsuf
    have hl : 0 < suf.length := List.length_pos.mpr hsuf
    simp [store_file_content, generate_content, hl, String.append_assoc]

/-- C2 witness: the amended assembly equations evaluated at one concrete
prefix input and one concrete suffix input. -/
theorem store_file_assembly_amended_witness :
    store_file_content [⟨none, "a"⟩] [] "," "x" =
      String.intercalate ","
          ((sortKeyed (([⟨none, "a"⟩] : List Fragment).map fragPair)).map
            (fun x => x.2)) ++ "," ++ "," ++ "x" ∧
    store_file_content [] [⟨none, "b"⟩] "," "x" =
      "x" ++ "," ++
        String.intercalate ","
          ((sortKeyed (([⟨none, "b"⟩] : List Fragment).map fragPair)).map
            (fun x => x.2)) ++ "," :=
  ⟨(store_file_assembly_amended [⟨none, "a"⟩] [] "," "x").1 rfl (by decide),
   (store_file_assembly_amended [] [⟨none, "b"⟩] "," "x").2 rfl (by decide)⟩

/-! ## Claim C3: fragment ordering in `generate_content` -/

/-- C3 counterexample: two fragments with the same sorting key and different
values are not tie-broken by value — the stable sort keeps input order, so
permuting the input multiset changes the output. -/
theorem generate_content_order_dep_cex :
    generate_content [⟨some "k", "b"⟩, ⟨some "k", "a"⟩] "," = "b,a," ∧
    generate_content [⟨some "k", "a"⟩, ⟨some "k", "b"⟩] "," = "a,b," ∧
    generate_content [⟨some "k", "b"⟩, ⟨some "k", "a"⟩] "," ≠
      generate_content [⟨some "k", "a"⟩, ⟨some "k", "b"⟩] "," := by
  refine ⟨by decide, by decide, by decide⟩

/-- C3 (amended): `generate_content` orders fragments ascending by the
sorting key alone (a fragment without a key uses its value as key); ties
between equal keys keep input order (stable sort) instead of being broken
by value, so the output is a deterministic function of the fragment
multiset only when no two fragments share a sorting key: permuting a
fragment list whose sorting keys are pairwise distinct leaves the output
unchanged. -/
theorem generate_content_perm_amended (l1 l2 : List Fragment) (s : String)
    (hp : l1.Perm l2) (hn : (l1.map (fun c => (fragPair c).1)).Nodup) :
    generate_content l1 s = generate_content l2 s := by
  have hpp : (l1.map fragPair).Perm (l2.map fragPair) := hp.map fragPair
  have hperm : (sortKeyed (l1.map fragPair)).Perm (sortKeyed (l2.map fragPair)) :=
    (sortKeyed_perm _).trans (hpp.trans (sortKeyed_perm _).symm)
  have hn1 : ((l1.map fragPair).map Prod.fst).Nodup := by
    rw [List.map_map]; exact hn
  have hn2 : ((l2.map fragPair).map Prod.fst).Nodup :=
    ((hpp.map Prod.fst).nodup_iff).mp hn1
  have hnd1 : ((sortKeyed (l1.map fragPair)).map Prod.fst).Nodup :=
    (((sortKeyed_perm (l1.map fragPair)).map Prod.fst).nodup_iff).mpr hn1
  have hnd2 : ((sortKeyed (l2.map fragPair)).map Prod.fst).Nodup :=
    (((sortKeyed_perm (l2.map fragPair)).map Prod.fst).nodup_iff).mpr hn2
  have hs1 : (sortKeyed (l1.map fragPair)).Sorted keyLt :=
    (List.Pairwise.and (sortKeyed_sorted _) (List.pairwise_map.mp hnd1)).imp
      (fun h => keyLt_of_keyLe_ne h.1 h.2)
  have hs2 : (sortKeyed (l2.map fragPair)).Sorted keyLt :=
    (List.Pairwise.and (sortKeyed_sorted _) (List.pairwise_map.mp hnd2)).imp
      (fun h => keyLt_of_keyLe_ne h.1 h.2)
  haveI : IsAntisymm (String × String) keyLt :=
    ⟨fun _ _ h1 h2 => (lexLt_asymm h1 h2).elim⟩
  have heq := List.eq_of_perm_of_sorted hperm hs1 hs2
  simp [generate_content, heq]

/-- C3 witness: the amended determinism property evaluated on a concrete
permutation with pairwise distinct sorting keys. -/
theorem generate_content_perm_amended_witness :
    generate_content [⟨some "b", "y"⟩, ⟨some "a", "x"⟩] "," =
      generate_content [⟨some "a", "x"⟩, ⟨some "b", "y"⟩] "," :=
  generate_content_perm_amended _ _ "," (by decide) (by decide)

/-! ## Lemmas about the character-level splitters -/

theorem pySplitChar_no_sep {sep : Char} {cs : List Char}
    (h : cs.contains sep = false) : pySplitChar sep cs = [cs] := by
  induction cs with
  | nil => rfl
  | cons c rest ih =>
    simp only [List.contains_cons, Bool.or_eq_false_iff, beq_eq_false_iff_ne,
      ne_eq] at h
    have hr := ih h.2
    simp only [pySplitChar, List.foldr_cons] at hr ⊢
    rw [hr, if_neg (Ne.symm h.1)]

theorem pySplitChar_append {sep : Char} {a : List Char} (b : List Char)
    (ha : a.contains sep = false) :
    pySplitChar sep (a ++ sep :: b) = a :: pySplitChar sep b := by
  induction a with
  | nil =>
    show pySplitChar sep (sep :: b) = [] :: pySplitChar sep b
    simp [pySplitChar, List.foldr_cons]
  | cons c rest ih =>
    simp only [List.contains_cons, Bool.or_eq_false_iff, beq_eq_false_iff_ne,
      ne_eq] at ha
    have hr := ih ha.2
    simp only [pySplitChar, List.foldr_cons, List.cons_append] at hr ⊢
    rw [hr, if_neg (Ne.symm ha.1)]

theorem splitDash_single {a : List Char} (b : List Char)
    (ha : a.contains '-' = false) (hb : b.contains '-' = false) :
    splitDash (a ++ '-' :: b) = [a, b] := by
  rw [splitDash, pySplitChar_append b ha, pySplitChar_no_sep hb]

theorem takeWhile_dropWhile_dash {a : List Char} (b : List Char)
    (ha : a.contains '-' = false) :
    (a ++ '-' :: b).takeWhile (fun c => c ≠ '-') = a ∧
      (a ++ '-' :: b).dropWhile (fun c => c ≠ '-') = '-' :: b := by
  induction a with
  | nil => simp [List.takeWhile_cons, List.dropWhile_cons]
  | cons c rest ih =>
    simp only [List.contains_cons, Bool.or_eq_false_iff, beq_eq_false_iff_ne,
      ne_eq] at ha
    obtain ⟨h1, h2⟩ := ih ha.2
    constructor
    · simp only [List.cons_append, List.takeWhile_cons]
      rw [if_pos (by simpa using Ne.symm ha.1), h1]
    · simp only [List.cons_append, List.dropWhile_cons]
      rw [if_pos (by simpa using Ne.symm ha.1), h2]

theorem firstDashSplit_single {a : List Char} (b : List Char)
    (ha : a.contains '-' = false) :
    firstDashSplit (a ++ '-' :: b) = some (a, b) := by
  have hmem : (a ++ '-' :: b).contains '-' = true := by
    simp [List.contains_cons]
  obtain ⟨h1, h2⟩ := takeWhile_dropWhile_dash b ha
  rw [firstDashSplit, if_pos hmem, h1, h2]
  rfl

/-! ## Claim C6: check-update version splitting -/

/-- C6 counterexample: a check-update line whose version column holds more
than one dash is not split at the first dash into a pair — the unpacking
`version, release = version_str.split("-")` raises a `ValueError`, while
the first-dash split of the column would be `("1", "2-3")`. -/
theorem check_update_multi_dash_cex :
    parseUpdateFirstLine "pkg 1-2-3 repo".data = Except.error () ∧
    firstDashSplit "1-2-3".data = some ("1".data, "2-3".data) ∧
    parseUpdateFirstLine "pkg 1-2-3 repo".data ≠
      Except.ok (some ("1".data, "2-3".data)) := by
  refine ⟨by decide, by decide, by decide⟩

/-- C6 (amended): for a check-update first line that is not a security
banner and has at least three whitespace-separated columns, the version
column is split on dashes and must contain exactly one; the parse raises
when it does not, and when the column has the shape `version-release` with
dash-free halves, the `(version, release)` pair — which then coincides with
the split at the first dash — populates the available-update field. -/
theorem check_update_single_dash_amended (line t0 a b t2 : List Char)
    (rest : List (List Char))
    (htok : wsTokens line = t0 :: (a ++ '-' :: b) :: t2 :: rest)
    (ha : a.contains '-' = false) (hb : b.contains '-' = false)
    (hsec : "Security:".data.isPrefixOf line = false) :
    parseUpdateFirstLine line = Except.ok (some (a, b)) ∧
    firstDashSplit (a ++ '-' :: b) = some (a, b) := by
  refine ⟨?_, firstDashSplit_single b ha⟩
  simp only [parseUpdateFirstLine, htok]
  rw [if_pos ⟨by simp, hsec⟩]
  rw [show (t0 :: (a ++ '-' :: b) :: t2 :: rest).getD 1 [] = a ++ '-' :: b from rfl]
  rw [splitDash_single b ha hb]

/-- C6 witness: the amended parse at a concrete yum check-update line. -/
theorem check_update_single_dash_amended_witness :
    parseUpdateFirstLine "wget.x86_64 1.14-18.el7 updates".data =
      Except.ok (some ("1.14".data, "18.el7".data)) :=
  (check_update_single_dash_amended "wget.x86_64 1.14-18.el7 updates".data
      "wget.x86_64".data "1.14".data "18.el7".data "updates".data []
      (by decide) (by decide) (by decide) (by decide)).1

/-! ## Claim C7: field parsing of yum info output -/

/-- C7: one step of `_parse_fields` behaves as specified — a matched line
whose stripped key is non-empty starts a new field (recorded under the
stripped key, all other fields unchanged) and becomes the most recently
started field; a matched line with an empty stripped key appends its value,
preceded by exactly one space, to the most recently started field, leaving
every other field unchanged; and the marker line `Available Packages` stops
the parse, returning the fields collected so far. -/
theorem parse_fields_steps (line : List Char) (rest : List (List Char))
    (props : List (List Char × List Char)) (oldKey : Option (List Char))
    (k v ko v0 : List Char) :
    (pyStrip line ≠ [] → pyStrip line ≠ "Available Packages".data →
      reMatchKV line = some (k, v) → pyStrip k ≠ [] →
      parseFieldsGo (line :: rest) props oldKey =
        parseFieldsGo rest (dictSet props (pyStrip k) v) (some (pyStrip k)) ∧
      dictLookup (dictSet props (pyStrip k) v) (pyStrip k) = some v ∧
      ∀ k2, k2 ≠ pyStrip k →
        dictLookup (dictSet props (pyStrip k) v) k2 = dictLookup props k2) ∧
    (pyStrip line ≠ [] → pyStrip line ≠ "Available Packages".data →
      reMatchKV line = some (k, v) → pyStrip k = [] →
      dictLookup props ko = some v0 →
      ∃ props2, dictAppendSpace props ko v = some props2 ∧
        parseFieldsGo (line :: rest) props (some ko) =
          parseFieldsGo rest props2 (some ko) ∧
        dictLookup props2 ko = some (v0 ++ ' ' :: v) ∧
        ∀ k2, k2 ≠ ko → dictLookup props2 k2 = dictLookup props k2) ∧
    (pyStrip line = "Available Packages".data →
      parseFieldsGo (line :: rest) props oldKey = Except.ok props) := by
  refine ⟨?_, ?_, ?_⟩
  · intro h1 h2 hm hk
    refine ⟨?_, dictSet_lookup_self _ _ _,
      fun k2 hk2 => dictSet_lookup_other _ _ _ _ hk2⟩
    simp only [parseFieldsGo, h1, h2, hm, hk, if_false]
  · intro h1 h2 hm hk hlook
    obtain ⟨props2, hp2, hl2, hframe⟩ := dictAppendSpace_spec props ko v v0 hlook
    refine ⟨props2, hp2, ?_, hl2, hframe⟩
    simp only [parseFieldsGo, h1, h2, hm, hk, hp2, if_false, if_true]
  · intro h2
    have h1 : pyStrip line ≠ [] := by rw [h2]; decide
    simp [parseFieldsGo, h1, h2]

/-- C7 witness: a key line followed by the stop marker yields exactly the
new field; evaluated concretely through the step theorem. -/
theorem parse_fields_steps_witness :
    parseFieldsGo ["Name : wget".data, "Available Packages".data] [] none =
      Except.ok [("Name".data, "wget".data)] := by
  have h1 := (parse_fields_steps "Name : wget".data ["Available Packages".data] []
      none "Name".data "wget".data [] []).1 (by decide) (by decide) (by decide)
      (by decide)
  rw [h1.1]
  have h2 := (parse_fields_steps "Available Packages".data []
      (dictSet [] (pyStrip "Name".data) "wget".data) (some (pyStrip "Name".data))
      [] [] [] []).2.2 (by decide)
  rw [h2]
  decide

/-! ## Claim C1: empty change-set on a converged package -/

/-- C1: for the Package reconciler, `list_changes` on a snapshot that
already satisfies the desired state (removed when desired removed,
installed when desired installed, installed with no available update when
desired latest) returns the empty change-set, so re-running the diff after
a successful apply with no external change reports convergence. -/
theorem list_changes_converged_empty (desired : String) (st : CheckResult)
    (h : convergedPkg desired st) : (list_changes desired st).isEmpty := by
  rcases h with ⟨hd, hs⟩ | ⟨hd, hs⟩ | ⟨hd, hs, hu⟩ <;> subst hd
  · constructor
    · simp [list_changes, hs]
    · cases st with
      | removedOnly => rfl
      | full s v r u => simp [list_changes]
  · constructor
    · simp [list_changes, hs]
    · cases st with
      | removedOnly => rfl
      | full s v r u => simp [list_changes]
  · constructor
    · simp [list_changes, hs]
    · cases st with
      | removedOnly => rfl
      | full s v r u =>
        simp only [checkUpdate] at hu
        simp [list_changes, hu]

/-- C1 witness: a converged `latest` package (installed, no pending update)
produces an empty change-set. -/
theorem list_changes_converged_empty_witness :
    convergedPkg "latest" (CheckResult.full "installed" "1.14" "18.el7" none) ∧
    (list_changes "latest" (CheckResult.full "installed" "1.14" "18.el7" none)).isEmpty :=
  ⟨Or.inr (Or.inr ⟨rfl, rfl, rfl⟩),
   list_changes_converged_empty "latest" _ (Or.inr (Or.inr ⟨rfl, rfl, rfl⟩))⟩

/-! ## Claim C4: service handler availability -/

/-- C4 counterexample: on a host where `systemctl` exists only at
`/bin/systemctl` while `/sbin/chkconfig` and `/sbin/service` exist, both
service handlers report themselves available — the legacy handler only
excludes itself when `/usr/bin/systemctl` exists. -/
theorem both_service_handlers_available_cex :
    systemd_available
        (fun p => ["/bin/systemctl", "/sbin/chkconfig", "/sbin/service"].contains p) =
      true ∧
    redhat_service_available
        (fun p => ["/bin/systemctl", "/sbin/chkconfig", "/sbin/service"].contains p) =
      true := by
  refine ⟨by decide, by decide⟩

/-- C4 (amended): the systemd handler is available iff `systemctl` exists at
`/usr/bin/systemctl` or `/bin/systemctl`, and the legacy handler excludes
itself only on `/usr/bin/systemctl`: when that path exists the systemd
handler is available and the legacy one is not (so with both tool sets
fully present, systemd wins), but a systemctl present only at
`/bin/systemctl` does not make the legacy handler unavailable. -/
theorem systemd_wins_usr_path_amended (file_exists : String → Bool)
    (h : file_exists "/usr/bin/systemctl" = true) :
    systemd_available file_exists = true ∧
    redhat_service_available file_exists = false := by
  constructor
  · simp [systemd_available, systemd_path, h]
  · simp [redhat_service_available, h]

/-- C4 witness: the amended selection property on a host that has every
probed binary. -/
theorem systemd_wins_usr_path_amended_witness :
    systemd_available (fun _ => true) = true ∧
    redhat_service_available (fun _ => true) = false :=
  systemd_wins_usr_path_amended (fun _ => true) rfl

/-! ## Claim C5: file creation -/

/-- C5: `PosixFileProvider.create_resource` fails when the path exists;
otherwise, when the fetched bytes do not re-hash to the expected hash it
fails with no write performed; on a hash match the trace is exactly write,
then chmod, then chown, in that order. -/
theorem create_resource_file_spec (hashFn : List Nat → String) (file_exists : Bool)
    (fetched : List Nat) (hash : String) (permissions : Nat) (owner group : String) :
    (file_exists = true →
      ∃ msg, PosixFileProvider.create_resource hashFn file_exists fetched hash
          permissions owner group = Except.error msg) ∧
    (file_exists = false → hashFn fetched ≠ hash →
      ∃ msg, PosixFileProvider.create_resource hashFn file_exists fetched hash
          permissions owner group = Except.error msg) ∧
    (file_exists = false → hashFn fetched = hash →
      PosixFileProvider.create_resource hashFn file_exists fetched hash
          permissions owner group =
        Except.ok [FsOp.put fetched, FsOp.chmod (toString permissions),
          FsOp.chown owner group]) := by
  refine ⟨?_, ?_, ?_⟩
  · rintro rfl
    exact ⟨_, rfl⟩
  · rintro rfl hne
    refine ⟨"File hash mismatch", ?_⟩
    simp [PosixFileProvider.create_resource, hne]
  · rintro rfl heq
    simp [PosixFileProvider.create_resource, heq]

/-- C5 witness: the creation trace at concrete inputs, for an absent path
and a matching hash. -/
theorem create_resource_file_spec_witness :
    PosixFileProvider.create_resource (fun _ => "h") false [7, 8] "h" 420 "root" "wheel" =
      Except.ok [FsOp.put [7, 8], FsOp.chmod "420", FsOp.chown "root" "wheel"] :=
  (create_resource_file_spec (fun _ => "h") false [7, 8] "h" 420 "root" "wheel").2.2
    rfl rfl

/-! ## Claim C8: file update applies exactly the changed facets -/

/-- C8: `PosixFileProvider.update_resource` fails when the path no longer
exists; with the path present it re-fetches and integrity-checks the
content only when `"hash"` is in the change-set (failing hard on mismatch),
and the trace contains the content write iff `"hash"` is in the change-set,
the chmod iff `"permissions"` is, the chown iff `"owner"` or `"group"` is,
and nothing else. -/
theorem update_resource_file_spec (hashFn : List Nat → String) (file_exists : Bool)
    (changes : List String) (fetched : List Nat) (hash : String) (permissions : Nat)
    (owner group : String) :
    (file_exists = false →
      ∃ msg, PosixFileProvider.update_resource hashFn file_exists changes fetched hash
          permissions owner group = Except.error msg) ∧
    (file_exists = true → "hash" ∈ changes → hashFn fetched ≠ hash →
      ∃ msg, PosixFileProvider.update_resource hashFn file_exists changes fetched hash
          permissions owner group = Except.error msg) ∧
    (file_exists = true → ("hash" ∈ changes → hashFn fetched = hash) →
      PosixFileProvider.update_resource hashFn file_exists changes fetched hash
          permissions owner group =
        Except.ok
          ((if "hash" ∈ changes then [FsOp.put fetched] else []) ++
            (if "permissions" ∈ changes then [FsOp.chmod (toString permissions)]
              else []) ++
            (if "owner" ∈ changes ∨ "group" ∈ changes then [FsOp.chown owner group]
              else []))) := by
  refine ⟨?_, ?_, ?_⟩
  · rintro rfl
    exact ⟨_, rfl⟩
  · rintro rfl hh hne
    refine ⟨"File hash mismatch", ?_⟩
    simp [PosixFileProvider.update_resource, hh, hne]
    rfl
  · rintro rfl hok
    by_cases hh : "hash" ∈ changes
    · simp [PosixFileProvider.update_resource, hh, hok hh]
      rfl
    · simp [PosixFileProvider.update_resource, hh]
      rfl

/-- C8 witness: an update whose change-set holds only `"permissions"`
performs exactly the chmod. -/
theorem update_resource_file_spec_witness :
    PosixFileProvider.update_resource (fun _ => "h") true ["permissions"] [7] "h" 384
        "root" "root" =
      Except.ok [FsOp.chmod "384"] := by
  have h :=
    (update_resource_file_spec (fun _ => "h") true ["permissions"] [7] "h" 384
        "root" "root").2.2 rfl (fun hh => by simp at hh)
  simpa using h

/-! ## Claim C9: agent map write-back preserves unrelated entries -/

/-- C9: the map written back by `AgentConfigHandler.create_resource` and
`AgentConfigHandler.update_resource` maps the agent name to the resource
URI and agrees with the map that was read on every other key. -/
theorem agentconfig_write_back_spec (m : List (String × String)) (n uri : String) :
    dictLookup (AgentConfigHandler.create_resource m n uri) n = some uri ∧
    dictLookup (AgentConfigHandler.update_resource m n uri) n = some uri ∧
    (∀ k, k ≠ n →
      dictLookup (AgentConfigHandler.create_resource m n uri) k = dictLookup m k) ∧
    (∀ k, k ≠ n →
      dictLookup (AgentConfigHandler.update_resource m n uri) k = dictLookup m k) := by
  refine ⟨dictSet_lookup_self m n uri, dictSet_lookup_self m n uri,
    fun k hk => dictSet_lookup_other m n uri k hk,
    fun k hk => dictSet_lookup_other m n uri k hk⟩

/-- C9 witness: updating `worker1 → uri2` in a map holding `worker2 → uri3`
leaves the `worker2` entry unchanged and sets `worker1`. -/
theorem agentconfig_write_back_spec_witness :
    dictLookup (AgentConfigHandler.update_resource [("worker2", "uri3")] "worker1" "uri2")
        "worker1" = some "uri2" ∧
    dictLookup (AgentConfigHandler.update_resource [("worker2", "uri3")] "worker1" "uri2")
        "worker2" = dictLookup [("worker2", "uri3")] "worker2" :=
  ⟨(agentconfig_write_back_spec [("worker2", "uri3")] "worker1" "uri2").2.1,
   (agentconfig_write_back_spec [("worker2", "uri3")] "worker1" "uri2").2.2.2
     "worker2" (by decide)⟩

/-! ## Claim C10: autostart gating -/

/-- C10: `AgentConfig.get_autostart` raises `IgnoreResourceException` when
evaluating the autostart attribute raises any exception (including the
unset case) or yields a falsy value, and returns the attribute only when it
is truthy, so exactly the truthy-autostart resources proceed. -/
theorem get_autostart_skip_spec :
    (∀ e, get_autostart (Except.error e) = Except.error "IgnoreResourceException") ∧
    get_autostart (Except.ok false) = Except.error "IgnoreResourceException" ∧
    get_autostart (Except.ok true) = Except.ok true := by
  refine ⟨fun e => rfl, rfl, rfl⟩

/-- C10 witness: the three gating outcomes at concrete inputs. -/
theorem get_autostart_skip_spec_witness :
    get_autostart (Except.error "AttributeError") =
      Except.error "IgnoreResourceException" :=
  get_autostart_skip_spec.1 "AttributeError"

end StdPlugins
